import Mathlib

/-!
Verification development for a local file-search service (Rust sources).

The embedding below translates the parts of the program relevant to the
properties under study:

* `registry.rs`   - the per-path processing registry (`FileRegistry`);
* `cache.rs`      - the content-keyed tag cache (`EmbeddingCache`, sled db);
* `query/parser.rs` - the structured query parser (`QueryParser`);
* `query/filter.rs` - the filter compiler (`FilterBuilder`, `PathMatcher`);
* `engine/core.rs`  - the search engine (`SearchEngine::search`, `delete_file`,
  `is_indexed`) and `api/response.rs` (`SearchResponse`).

Machine integers are modelled as `Nat` with explicit wrapping (`% 2^w`) where
the Rust code can overflow; `SystemTime` values are Unix seconds as `Nat`.
External collaborators (tantivy's searcher/collector, the `glob` crate's
compiled patterns, the AI keyword extractor, the `DefaultHasher`) are
parameters of the embedding, never stubs of in-repo logic.
-/

/-! ## Generic list/string helpers (models of the Rust std operations used) -/

/-- Association-list lookup, modelling `HashMap::get` / sled `Db::get`:
the value of the first pair whose key equals `p`. -/
def aget {α : Type} : List (String × α) → String → Option α
  | [], _ => none
  | kv :: rest, p => if kv.1 = p then some kv.2 else aget rest p

/-- In-place update of the entry with key `p`, modelling `HashMap::get_mut`
followed by a field assignment. Keys other than `p` are untouched. -/
def aset {α : Type} (m : List (String × α)) (p : String) (v : α) :
    List (String × α) :=
  m.map (fun kv => if kv.1 = p then (p, v) else kv)

/-- Removal of the entry with key `p`, modelling `HashMap::remove` /
sled `Db::remove`. -/
def aremove {α : Type} (m : List (String × α)) (p : String) :
    List (String × α) :=
  m.filter (fun kv => ¬ kv.1 = p)

/-- Insert-or-replace, modelling sled `Db::insert` (which overwrites any
previous value under the same key). -/
def areplace {α : Type} (m : List (String × α)) (p : String) (v : α) :
    List (String × α) :=
  (p, v) :: aremove m p

/-- `str::split(sep)` on a single-character separator: accumulator-based
splitter (`"a--b".split('-')` gives `["a", "", "b"]`, `""` gives `[""]`). -/
def splitCharAux (sep : Char) : List Char → List Char → List (List Char)
  | [], cur => [cur.reverse]
  | c :: rest, cur =>
    if c = sep then cur.reverse :: splitCharAux sep rest []
    else splitCharAux sep rest (c :: cur)

/-- `str::split(sep).collect::<Vec<&str>>()` for a `char` separator. -/
def splitOnChar (sep : Char) (s : String) : List String :=
  (splitCharAux sep s.toList []).map List.asString

/-- The ASCII whitespace recognised by the model of `str::trim` and of the
regex class `\s` (the inputs of interest are ASCII). -/
def isSpaceChar (c : Char) : Bool :=
  c = ' ' || c = '\t' || c = '\n' || c = '\r'

/-- `str::trim` on the character list. -/
def trimChars (cs : List Char) : List Char :=
  ((cs.dropWhile isSpaceChar).reverse.dropWhile isSpaceChar).reverse

/-- `str::trim` (ASCII fragment). -/
def trimString (s : String) : String :=
  (trimChars s.toList).asString

/-- ASCII fragment of `char::to_lowercase`, enough for the parser's
`to_lowercase()` calls on flag values. -/
def asciiLowerChar (c : Char) : Char :=
  if 'A' ≤ c ∧ c ≤ 'Z' then Char.ofNat (c.toNat + 32) else c

/-- `str::to_lowercase` (ASCII fragment). -/
def asciiLower (s : String) : String :=
  (s.toList.map asciiLowerChar).asString

/-- Decimal value of a digit list (the numeric part of `str::parse`). -/
def digitsVal (cs : List Char) : Nat :=
  cs.foldl (fun acc c => acc * 10 + (c.toNat - 48)) 0

/-- `str::parse::<uN>` / the non-negative case of `parse::<iN>`: an optional
leading `'+'`, then one or more digits, rejecting values above `bound`
(`parse` returns `Err` on overflow, which the callers turn into `None`).
A leading `'-'` cannot reach these call sites: every parsed part comes from
`split('-')`. -/
def stripPlus : List Char → List Char
  | '+' :: rest => rest
  | cs => cs

/-- The digit run of `str::parse`, bounded by the integer type's maximum. -/
def parseDigitsBounded (bound : Nat) (cs : List Char) : Option Nat :=
  if cs.isEmpty then none
  else if cs.all Char.isDigit then
    if digitsVal cs ≤ bound then some (digitsVal cs) else none
  else none

def parseRustNat (bound : Nat) (s : String) : Option Nat :=
  parseDigitsBounded bound (stripPlus s.toList)

/-- Space-joined concatenation, modelling `Vec::join(" ")`. -/
def joinSpace : List String → String
  | [] => ""
  | [s] => s
  | s :: rest => s ++ " " ++ joinSpace rest

/-- `u64::MAX` + 1, the wrap-around modulus of `u64` arithmetic. -/
def U64MOD : Nat := 18446744073709551616

/-- `u32::MAX` + 1, the wrap-around modulus of `u32` arithmetic. -/
def U32MOD : Nat := 4294967296

/-- `i32::MAX`, the bound of `str::parse::<i32>` for sign-free input. -/
def I32MAXN : Nat := 2147483647

/-- `u32::MAX`, the bound of `str::parse::<u32>`. -/
def U32MAXN : Nat := 4294967295

/-- `u64::MAX`, used by `TimeRange::After`. -/
def U64MAXN : Nat := 18446744073709551615

/-- The cast `(z : i32) as u64` (two's-complement reinterpretation). -/
def i32CastU64 (z : Int) : Nat :=
  (z % (U64MOD : Int)).toNat

/-- Wrapping `u32` subtraction `a - b` for `b ≤ U32MOD` (release-profile
semantics of the underflowing `month - 1` / `day - 1`). -/
def u32SubWrap (a b : Nat) : Nat :=
  (a + U32MOD - b) % U32MOD

/-! ## registry.rs - `FileRegistry` -/

/-- `registry.rs` `FileState`; `SystemTime` modelled as Unix seconds. -/
structure FileState where
  modified_time : Nat
  processed_time : Nat
  processing : Bool
deriving DecidableEq, Repr

/-- `registry.rs` `EventType`. -/
inductive EventType
  | Create
  | Modify
  | Delete
deriving DecidableEq, Repr

/-- `registry.rs` `PendingEvent`. -/
structure PendingEvent where
  path : String
  event_type : EventType
  timestamp : Nat
deriving DecidableEq, Repr

/-- `registry.rs` `RegistryInner` (the state owned by the one `RwLock`);
`FileRegistry` operations below act on it atomically, mirroring that each
Rust method holds the write lock for its whole body. -/
structure FileRegistry where
  files : List (String × FileState)
  scan_completed : Bool
  pending_events : List PendingEvent
deriving DecidableEq, Repr

/-- `FileRegistry::new`. -/
def FileRegistry.new : FileRegistry :=
  { files := [], scan_completed := false, pending_events := [] }

/-- `FileRegistry::try_start_processing(path, file_mod_time)`.
`now` is the value `SystemTime::now()` would return for the fresh entry's
`processed_time`. -/
def FileRegistry.tryStartProcessing (now : Nat) (r : FileRegistry)
    (p : String) (t : Nat) : Bool × FileRegistry :=
  match aget r.files p with
  | some st =>
    if st.processing then (false, r)
    else if t ≤ st.modified_time then (false, r)
    else
      let st2 : FileState := { st with processing := true, modified_time := t }
      (true, { r with files := aset r.files p st2 })
  | none =>
    let st2 : FileState :=
      { modified_time := t, processed_time := now, processing := true }
    (true, { r with files := r.files ++ [(p, st2)] })

/-- `FileRegistry::finish_processing(path)`. -/
def FileRegistry.finishProcessing (now : Nat) (r : FileRegistry)
    (p : String) : FileRegistry :=
  match aget r.files p with
  | some st =>
    let st2 : FileState := { st with processing := false, processed_time := now }
    { r with files := aset r.files p st2 }
  | none => r

/-- `FileRegistry::mark_deleted(path)`. -/
def FileRegistry.markDeleted (r : FileRegistry) (p : String) : FileRegistry :=
  { r with files := aremove r.files p }

/-- `FileRegistry::add_pending_event(path, event_type)`. -/
def FileRegistry.addPendingEvent (now : Nat) (r : FileRegistry) (p : String)
    (k : EventType) : FileRegistry :=
  if r.scan_completed then r
  else
    let e : PendingEvent := { path := p, event_type := k, timestamp := now }
    { r with pending_events := r.pending_events ++ [e] }

/-- `FileRegistry::complete_scan()`: flips the flag and drains the queue. -/
def FileRegistry.completeScan (r : FileRegistry) :
    List PendingEvent × FileRegistry :=
  (r.pending_events,
   { r with scan_completed := true, pending_events := [] })

/-- Whether the registry currently records `path` as in flight
(`processing == true`); absent entries are not in flight. -/
def processingOf (r : FileRegistry) (p : String) : Bool :=
  match aget r.files p with
  | some st => st.processing
  | none => false

/-- One atomically executed registry call, for reasoning about interleaved
histories (each Rust method body runs under the registry's write lock).
The `Nat` paired with each op in a trace is its `SystemTime::now()` value. -/
inductive RegOp
  | tryStart (p : String) (t : Nat)
  | finish (p : String)
  | markDel (p : String)
  | addPending (p : String) (k : EventType)
  | completeScanOp
deriving DecidableEq, Repr

/-- Apply one registry call (discarding its return value). -/
def regStep (r : FileRegistry) (op : Nat × RegOp) : FileRegistry :=
  match op.2 with
  | RegOp.tryStart p t => (FileRegistry.tryStartProcessing op.1 r p t).2
  | RegOp.finish p => FileRegistry.finishProcessing op.1 r p
  | RegOp.markDel p => FileRegistry.markDeleted r p
  | RegOp.addPending p k => FileRegistry.addPendingEvent op.1 r p k
  | RegOp.completeScanOp => (FileRegistry.completeScan r).2

/-- Apply a whole interleaved trace of registry calls. -/
def applyOps (r : FileRegistry) (ops : List (Nat × RegOp)) : FileRegistry :=
  ops.foldl regStep r

/-! ## cache.rs - `EmbeddingCache` (sled-backed tag cache) -/

/-- A value stored in the sled db, with bincode (de)serialization abstracted
to typed constructors: `tagEntry` is a serialized `CacheEntry`, `metaEntry`
a serialized `FileMetaEntry`, and `corrupt` stands for bytes that fail to
deserialize as the type the reader requests. A `metaEntry` read as a
`CacheEntry` (or vice versa) also fails to deserialize. -/
inductive CacheValue
  | tagEntry (content_hash : Nat) (keywords : List String)
  | metaEntry (file_size : Nat) (mtime : Nat) (indexed : Bool)
  | corrupt
deriving DecidableEq, Repr

/-- The sled key-value store contents (`EmbeddingCache.db`). -/
def CacheDb : Type := List (String × CacheValue)

/-- sled `Db::get`. -/
def dbGet (db : CacheDb) (k : String) : Option CacheValue := aget db k

/-- sled `Db::insert` (overwrite) followed by `flush` (no-op in the model). -/
def dbInsert (db : CacheDb) (k : String) (v : CacheValue) : CacheDb :=
  areplace db k v

/-- sled `Db::remove` followed by `flush`. -/
def dbRemove (db : CacheDb) (k : String) : CacheDb := aremove db k

/-- `EmbeddingCache::meta_key`: the `"meta:"`-prefixed key namespace of
`FileMetaEntry` records. -/
def metaKeyOf (p : String) : String := "meta:" ++ p

/-- `EmbeddingCache::get_keywords(file_path, content)`. `hash` is the
process-stable `DefaultHasher` digest, a parameter of the model. -/
def getKeywords (hash : String → Nat) (db : CacheDb)
    (file_path content : String) : Option (List String) :=
  let current_hash := hash content
  match dbGet db file_path with
  | some (CacheValue.tagEntry h kws) =>
    if h = current_hash then some kws else none
  | _ => none

/-- `EmbeddingCache::set_keywords(file_path, content, keywords)`. -/
def setKeywords (hash : String → Nat) (db : CacheDb)
    (file_path content : String) (keywords : List String) : CacheDb :=
  dbInsert db file_path (CacheValue.tagEntry (hash content) keywords)

/-- `EmbeddingCache::remove(file_path)` (erases the tag entry only). -/
def cacheRemove (db : CacheDb) (file_path : String) : CacheDb :=
  dbRemove db file_path

/-- `EmbeddingCache::save_file_meta(file_path, path)` with the stat result
(`file_size`, `mtime`) supplied; sets `indexed = true`. -/
def saveFileMeta (db : CacheDb) (file_path : String)
    (file_size mtime : Nat) : CacheDb :=
  dbInsert db (metaKeyOf file_path)
    (CacheValue.metaEntry file_size mtime true)

/-- `EmbeddingCache::remove_file_meta(file_path)`. (Never called anywhere
in the repository.) -/
def removeFileMeta (db : CacheDb) (file_path : String) : CacheDb :=
  dbRemove db (metaKeyOf file_path)

/-! ## query/types.rs - query data model -/

/-- `query/types.rs` `PathFilter`. -/
structure PathFilter where
  pattern : String
  exclude : Bool
deriving DecidableEq, Repr

/-- `PathFilter::include(pattern)`. -/
def PathFilter.includePat (pattern : String) : PathFilter :=
  { pattern := pattern, exclude := false }

/-- `PathFilter::exclude(pattern)`. -/
def PathFilter.excludePat (pattern : String) : PathFilter :=
  { pattern := pattern, exclude := true }

/-- `query/types.rs` `TimeField`. -/
inductive TimeField
  | Created
  | Modified
  | Indexed
deriving DecidableEq, Repr

/-- `query/types.rs` `TimeRange`. -/
inductive TimeRange
  | LastDays (n : Nat)
  | LastHours (n : Nat)
  | LastWeeks (n : Nat)
  | LastMonths (n : Nat)
  | Between (a b : Nat)
  | After (t : Nat)
  | Before (t : Nat)
  | Today
  | ThisWeek
  | ThisMonth
deriving DecidableEq, Repr

/-- `query/types.rs` `TimeFilter`. -/
structure TimeFilter where
  field : TimeField
  range : TimeRange
deriving DecidableEq, Repr

/-- `query/types.rs` `SizeFilter` (sizes in bytes). -/
inductive SizeFilter
  | GreaterThan (n : Nat)
  | LessThan (n : Nat)
  | Between (lo hi : Nat)
deriving DecidableEq, Repr

/-- `query/types.rs` `QueryFilters`. -/
structure QueryFilters where
  paths : List PathFilter
  time : Option TimeFilter
  file_types : List String
  size : Option SizeFilter
  tags : List String
deriving DecidableEq, Repr

/-- `query/types.rs` `ParsedQuery`. -/
structure ParsedQuery where
  text : String
  raw_text : String
  filters : QueryFilters
deriving DecidableEq, Repr

/-- `query/types.rs` `SortBy`. -/
inductive SortBy
  | Relevance
  | ModifiedDesc
  | ModifiedAsc
  | CreatedDesc
  | SizeDesc
  | Name
deriving DecidableEq, Repr

/-- `query/types.rs` `QueryOptions`. -/
structure QueryOptions where
  sort_by : SortBy
  limit : Nat
  offset : Nat
  highlight : Bool
  preview_length : Nat
deriving DecidableEq, Repr

/-! ## query/parser.rs - `QueryParser`

The flag scanner below implements the successive leftmost matches of the
pre-compiled regex

  `ARG_PATTERN = --([a-z\-]+)=(?:"([^"]+)"|([^\s]+))`

as `Regex::captures_iter` produces them (the Rust `regex` crate uses
leftmost-first alternation, so a well-quoted value is preferred over the
bareword branch). -/

/-- A character of the key class `[a-z\-]`. -/
def isArgKeyChar (c : Char) : Bool :=
  ('a' ≤ c && c ≤ 'z') || c = '-'

/-- Try to match `ARG_PATTERN` at the head of `cs`.  Returns
`(key, value, rest)` with `rest` the input after the whole match.
The key run is maximal (`[a-z\-]` never contains `'='`, so no backtracking
can produce a different key), the quoted branch requires at least one
non-quote character and a closing quote, and otherwise the bareword branch
takes the maximal run of non-whitespace (failing if empty). -/
def matchArgAt (cs : List Char) : Option (String × String × List Char) :=
  match cs with
  | '-' :: '-' :: rest =>
    let key := rest.takeWhile isArgKeyChar
    let rest2 := rest.dropWhile isArgKeyChar
    if key.isEmpty then none
    else
      match rest2 with
      | '=' :: rest3 =>
        let quoted :=
          match rest3 with
          | '"' :: rest4 =>
            let v := rest4.takeWhile (fun c => ¬ c = '"')
            if v.isEmpty then none
            else
              match rest4.dropWhile (fun c => ¬ c = '"') with
              | '"' :: rest5 => some (v, rest5)
              | _ => none
          | _ => none
        match quoted with
        | some (v, rest5) => some (key.asString, v.asString, rest5)
        | none =>
          let v := rest3.takeWhile (fun c => ¬ isSpaceChar c)
          if v.isEmpty then none
          else some (key.asString, v.asString,
                     rest3.dropWhile (fun c => ¬ isSpaceChar c))
      | _ => none
  | _ => none

/-- The scanning loop of `QueryParser::parse` (lines 65-89): walk the input;
at each regex match record the `(key, value)` pair, pushing the trimmed text
segment accumulated since the previous match; the final segment after the
last match is pushed untrimmed, exactly as `input[last_end..]` is.
`fuel` bounds the recursion; every call consumes at least one character, so
`cs.length + 1` fuel never runs out. -/
def scanArgsAux : Nat → List Char → List Char → List String × List (String × String)
  | fuel + 1, c :: cs, cur =>
    (match matchArgAt (c :: cs) with
     | some (k, v, rest) =>
       let step := scanArgsAux fuel rest []
       let texts :=
         if cur.isEmpty then step.1
         else (trimChars cur.reverse).asString :: step.1
       (texts, (k, v) :: step.2)
     | none => scanArgsAux fuel cs (c :: cur))
  | _, [], cur =>
    (if cur.isEmpty then [] else [cur.reverse.asString], [])
  | 0, cs, cur => ([(cur.reverse ++ cs).asString], [])

/-- `HashMap::entry(key).or_insert_with(Vec::new).push(value)`:
values accumulate per key in encounter order (only keyed lookups are
performed on the map afterwards, so an association list is faithful). -/
def argsPush (args : List (String × List String)) (k v : String) :
    List (String × List String) :=
  if (aget args k).isSome
  then args.map (fun kv => if kv.1 = k then (k, kv.2 ++ [v]) else kv)
  else args ++ [(k, [v])]

/-- `QueryParser::parse_time_range` (values `today|week|this-week|month|`
`this-month`, or `^(\d+)(h|d|w|m)$` with a `u32` count). -/
def parseTimeRange (s : String) : Option TimeRange :=
  let s := asciiLower s
  if s = "today" then some TimeRange.Today
  else if s = "week" then some TimeRange.ThisWeek
  else if s = "this-week" then some TimeRange.ThisWeek
  else if s = "month" then some TimeRange.ThisMonth
  else if s = "this-month" then some TimeRange.ThisMonth
  else
    let cs := s.toList
    let digits := cs.takeWhile Char.isDigit
    let rest := cs.dropWhile Char.isDigit
    if digits.isEmpty then none
    else
      match parseRustNat U32MAXN digits.asString with
      | none => none
      | some n =>
        match rest with
        | ['h'] => some (TimeRange.LastHours n)
        | ['d'] => some (TimeRange.LastDays n)
        | ['w'] => some (TimeRange.LastWeeks n)
        | ['m'] => some (TimeRange.LastMonths n)
        | _ => none

/-- `QueryParser::parse_date` (`YYYY-MM-DD`): split on `'-'`, parse the
three parts as `i32` / `u32` / `u32`, then compute
`(year-1970)*365 + (month-1)*30 + (day-1)` days of 86400 seconds, with the
release-profile wrapping semantics of the Rust casts
(`(year - 1970) as u64` sign-extends, `month - 1` / `day - 1` wrap in
`u32`). -/
def parseDateParts (ys ms ds : String) : Option Nat :=
  match parseRustNat I32MAXN ys, parseRustNat U32MAXN ms,
        parseRustNat U32MAXN ds with
  | some year, some month, some day =>
    let days :=
      (i32CastU64 ((year : Int) - 1970) * 365
        + u32SubWrap month 1 * 30 + u32SubWrap day 1) % U64MOD
    some (days * 86400 % U64MOD)
  | _, _, _ => none

/-- `QueryParser::parse_date` continued: dispatch on the split shape. -/
def parseDate (s : String) : Option Nat :=
  match splitOnChar '-' s with
  | [ys, ms, ds] => parseDateParts ys ms ds
  | _ => none

/-- One size-unit alternative of `SIZE_PATTERN`, leftmost-first
(`kb|mb|gb|b`), returning the byte multiplier and the rest. -/
def parseSizeUnit : List Char → Option (Nat × List Char)
  | 'k' :: 'b' :: rest => some (1024, rest)
  | 'm' :: 'b' :: rest => some (1024 * 1024, rest)
  | 'g' :: 'b' :: rest => some (1024 * 1024 * 1024, rest)
  | 'b' :: rest => some (1, rest)
  | _ => none

/-- The numeric part `\d+(?:\.\d+)?` of `SIZE_PATTERN`, as the exact
rational `num / den` (`den` a power of ten).  The fraction group is taken
only when a `'.'` is followed by at least one digit. -/
def parseSizeNum (cs : List Char) : Option (Nat × Nat × List Char) :=
  let intDigits := cs.takeWhile Char.isDigit
  let rest := cs.dropWhile Char.isDigit
  if intDigits.isEmpty then none
  else
    match rest with
    | '.' :: rest2 =>
      let fracDigits := rest2.takeWhile Char.isDigit
      if fracDigits.isEmpty then some (digitsVal intDigits, 1, rest)
      else
        some (digitsVal intDigits * 10 ^ fracDigits.length
                + digitsVal fracDigits,
              10 ^ fracDigits.length,
              rest2.dropWhile Char.isDigit)
    | _ => some (digitsVal intDigits, 1, rest)

/-- `QueryParser::parse_size_filter` against the anchored
`^([<>])?(\d+(?:\.\d+)?)(kb|mb|gb|b)?(?:-(\d+(?:\.\d+)?)(kb|mb|gb|b)?)?$`.
The `f64` product `(num * multiplier) as u64` is modelled by the exact
rational floor `num * mult / den`.  When the range group matched but its
unit capture is absent, the Rust code falls through to the single-value
arm (`--size=1kb-2` yields `LessThan(1024)`). -/
def parseSizeFilter (s : String) : Option SizeFilter :=
  let cs0 := (asciiLower s).toList
  let opAndRest :=
    match cs0 with
    | '<' :: rest => (some '<', rest)
    | '>' :: rest => (some '>', rest)
    | _ => ((none : Option Char), cs0)
  match parseSizeNum opAndRest.2 with
  | none => none
  | some (n1, d1, rest1) =>
    let unitAndRest :=
      match parseSizeUnit rest1 with
      | some (m, r) => (m, r)
      | none => (1, rest1)
    let size1 := n1 * unitAndRest.1 / d1
    let single :=
      match opAndRest.1 with
      | some '>' => some (SizeFilter.GreaterThan size1)
      | _ => some (SizeFilter.LessThan size1)
    match unitAndRest.2 with
    | [] => single
    | '-' :: rest3 =>
      match parseSizeNum rest3 with
      | none => none
      | some (n2, d2, rest4) =>
        match parseSizeUnit rest4 with
        | some (m2, rest5) =>
          if rest5.isEmpty
          then some (SizeFilter.Between size1 (n2 * m2 / d2))
          else none
        | none => if rest4.isEmpty then single else none
    | _ => none

/-- `QueryParser::parse_filters(args)`. -/
def parseFilters (args : List (String × List String)) : QueryFilters :=
  let paths :=
    (match aget args "path" with
     | some ps => ps.map PathFilter.includePat
     | none => []) ++
    (match aget args "exclude-path" with
     | some ps => ps.map PathFilter.excludePat
     | none => [])
  let file_types :=
    match aget args "type" with
    | some ts =>
      ts.foldl (fun acc t =>
        acc ++ (splitOnChar ',' t).map (fun v => asciiLower (trimString v))) []
    | none => []
  let tags :=
    match aget args "tag" with
    | some ts =>
      ts.foldl (fun acc t => acc ++ (splitOnChar ',' t).map trimString) []
    | none => []
  let time_field :=
    match (aget args "time-field").bind List.head? with
    | some s =>
      if s = "created" then TimeField.Created
      else if s = "indexed" then TimeField.Indexed
      else TimeField.Modified
    | none => TimeField.Modified
  let time :=
    match (aget args "time").bind List.head? with
    | some t =>
      match parseTimeRange t with
      | some range => some { field := time_field, range := range }
      | none => none
    | none =>
      match (aget args "after").bind List.head? with
      | some a =>
        match parseDate a with
        | some ts => some { field := time_field, range := TimeRange.After ts }
        | none => none
      | none =>
        match (aget args "before").bind List.head? with
        | some b =>
          match parseDate b with
          | some ts =>
            some { field := time_field, range := TimeRange.Before ts }
          | none => none
        | none => none
  let size :=
    match (aget args "size").bind List.head? with
    | some v => parseSizeFilter v
    | none => none
  { paths := paths, time := time, file_types := file_types,
    size := size, tags := tags }

/-- `QueryParser::parse(input)` for a parser built by `QueryParser::new()`
(no AI keyword extractor configured, as in `SearchEngine::search`), so
`text == raw_text`. -/
def QueryParser.parse (input : String) : ParsedQuery :=
  let cs := (trimString input).toList
  let scanned := scanArgsAux (cs.length + 1) cs []
  let raw_text :=
    trimString (joinSpace (scanned.1.filter (fun s => ¬ s = "")))
  let args := scanned.2.foldl (fun acc kv => argsPush acc kv.1 kv.2) []
  { text := raw_text, raw_text := raw_text, filters := parseFilters args }

/-! ## query/filter.rs - `FilterBuilder` time compilation and `PathMatcher` -/

/-- A compiled `glob::Pattern` abstracted by its `matches` behaviour; the
glob engine itself is an external crate. -/
def GlobPat : Type := String → Bool

/-- `query/filter.rs` `PathMatcher`: the retained `(pattern, is_exclude)`
pairs. -/
structure PathMatcher where
  patterns : List (GlobPat × Bool)

/-- `PathMatcher::new(filters)`: each pattern is compiled with
`Pattern::new(..).ok()`, so a pattern the compiler rejects is silently
dropped by the `filter_map`. `compile` is the external `Pattern::new`,
returning `none` exactly on invalid globs. -/
def PathMatcher.new (compile : String → Option GlobPat)
    (filters : List PathFilter) : PathMatcher :=
  { patterns := filters.filterMap
      (fun f => (compile f.pattern).map (fun p => (p, f.exclude))) }

/-- The scanning loop of `PathMatcher::matches`, carrying the `included`
and `has_include_patterns` accumulators; any exclude hit returns `false`
immediately, and the epilogue is `!has_include_patterns || included`. -/
def pathMatchLoop (path : String) :
    List (GlobPat × Bool) → Bool → Bool → Bool
  | [], included, has_include => !has_include || included
  | (pat, is_exclude) :: rest, included, has_include =>
    if is_exclude then
      if pat path then false
      else pathMatchLoop path rest included has_include
    else
      pathMatchLoop path rest (included || pat path) true

/-- `PathMatcher::matches(path)`. -/
def PathMatcher.matches (m : PathMatcher) (path : String) : Bool :=
  if m.patterns.isEmpty then true
  else pathMatchLoop path m.patterns false false

/-- `FilterBuilder::calculate_time_range(range)` with the wall clock `now`
(Unix seconds) supplied; `saturating_sub` is `Nat` subtraction. -/
def calculateTimeRange (now : Nat) : TimeRange → Option (Nat × Nat)
  | TimeRange.LastHours n => some (now - n * 3600, now)
  | TimeRange.LastDays n => some (now - n * 86400, now)
  | TimeRange.LastWeeks n => some (now - n * 7 * 86400, now)
  | TimeRange.LastMonths n => some (now - n * 30 * 86400, now)
  | TimeRange.Between a b => some (a, b)
  | TimeRange.After t => some (t, U64MAXN)
  | TimeRange.Before t => some (0, t)
  | TimeRange.Today => some (now / 86400 * 86400, now)
  | TimeRange.ThisWeek => some (now - 7 * 86400, now)
  | TimeRange.ThisMonth => some (now - 30 * 86400, now)

/-- The `RangeQuery` emitted by `FilterBuilder::build_time_query`: a
lower-inclusive, upper-exclusive window on one numeric fast field. -/
structure TimeRangeQuery where
  field : TimeField
  lowerIncl : Nat
  upperExcl : Nat
deriving DecidableEq, Repr

/-- `FilterBuilder::build_time_query(filter)`: resolve the range against
`now` and wrap it as `[Included lo, Excluded hi)` on the selected field
(the three time fields always exist in the schema, so `get_field` never
fails). -/
def buildTimeQuery (now : Nat) (filter : TimeFilter) :
    Option TimeRangeQuery :=
  match calculateTimeRange now filter.range with
  | some (start, stop) =>
    some { field := filter.field, lowerIncl := start, upperExcl := stop }
  | none => none

/-- Whether a document whose selected time field holds `x` satisfies the
emitted range predicate. -/
def timeQueryMatches (q : TimeRangeQuery) (x : Nat) : Bool :=
  decide (q.lowerIncl ≤ x) && decide (x < q.upperExcl)

/-! ## engine/core.rs + api/response.rs - search, delete, is_indexed -/

/-- A live document of the inverted index, keyed by its `path` field
(the stored fields not consulted by the properties below are elided). -/
structure IndexedDoc where
  path : String
deriving DecidableEq, Repr

/-- `api/response.rs` `Pagination`. -/
structure Pagination where
  offset : Nat
  limit : Nat
  has_more : Bool
deriving DecidableEq, Repr

/-- `api/response.rs` `QueryInfo` (keywords and filter summaries elided). -/
structure QueryInfo where
  raw_query : String
  search_text : String
deriving DecidableEq, Repr

/-- `api/response.rs` `SearchResponse`; `results` keeps the result paths. -/
structure SearchResponse where
  query : QueryInfo
  results : List String
  total : Nat
  pagination : Pagination
  took_ms : Nat
deriving DecidableEq, Repr

/-- `SearchResponse::new(query, results, total)`. -/
def SearchResponse.new (query : QueryInfo) (results : List String)
    (total : Nat) : SearchResponse :=
  { query := query
    results := results
    total := total
    pagination :=
      { offset := 0, limit := results.length,
        has_more := decide (results.length < total) }
    took_ms := 0 }

/-- `SearchResponse::with_pagination(offset, limit)`. -/
def SearchResponse.withPagination (r : SearchResponse) (offset limit : Nat) :
    SearchResponse :=
  { r with pagination :=
    { offset := offset, limit := limit,
      has_more := decide (offset + limit < r.total) } }

/-- `api/request.rs` `SearchRequest` (the JSON `filters` field is omitted:
`search` reads it only through `to_query_options().sort_by`, which the
result assembly never consults). -/
structure SearchRequest where
  query : String
  limit : Nat
  offset : Nat
  highlight : Bool
  snippet_length : Nat
  use_ai : Bool
deriving DecidableEq, Repr

/-- `SearchRequest::new(query)` with the serde defaults. -/
def SearchRequest.new (query : String) : SearchRequest :=
  { query := query, limit := 20, offset := 0, highlight := true,
    snippet_length := 200, use_ai := true }

/-- `SearchRequest::to_query_options()` (`sort_by` defaults to
`Relevance` when no JSON filters are attached). -/
def SearchRequest.toQueryOptions (r : SearchRequest) : QueryOptions :=
  { sort_by := SortBy.Relevance, limit := r.limit, offset := r.offset,
    highlight := r.highlight, preview_length := r.snippet_length }

/-- `searcher.search(&final_query, &TopDocs::with_limit(n))`: the external
collector contract — the `n` best-scoring documents matching the query, in
score order; `allMatches` is the full score-ordered match list of
`final_query`, so the collector returns its first `n` elements. -/
def topDocsSearch (allMatches : List IndexedDoc) (n : Nat) :
    List IndexedDoc :=
  allMatches.take n

/-- The result-collection loop of `SearchEngine::search` (lines 148-168):
over the retrieved docs after `skip(offset)`, keep paths accepted by the
path matcher, and break once `results.len() >= limit` right after a push. -/
def collectResults (matcher : PathMatcher) (limit : Nat) :
    List IndexedDoc → List String → List String
  | [], acc => acc.reverse
  | d :: rest, acc =>
    if matcher.matches d.path then
      let acc2 := d.path :: acc
      if limit ≤ acc2.length then acc2.reverse
      else collectResults matcher limit rest acc2
    else collectResults matcher limit rest acc

/-- `SearchEngine::search(request)` downstream of the index lookup:
`allMatches` abstracts the score-ordered documents matching the composed
text∧filter query (built from the same parsed request), and `compile` is
the glob compiler used by the post-filter `PathMatcher`.  The parsing, the
`TopDocs` cap at `limit + offset`, the offset skip, the path post-filter,
and the response assembly (`total = search_results.len()`, then
`with_pagination(offset, limit)`) mirror `engine/core.rs` lines 94-187. -/
def SearchEngine.search (compile : String → Option GlobPat)
    (allMatches : List IndexedDoc) (request : SearchRequest) :
    SearchResponse :=
  let parsed := QueryParser.parse request.query
  let options := request.toQueryOptions
  let search_results := topDocsSearch allMatches (options.limit + options.offset)
  let path_matcher := PathMatcher.new compile parsed.filters.paths
  let results :=
    collectResults path_matcher options.limit
      (search_results.drop options.offset) []
  (SearchResponse.new { raw_query := request.query, search_text := parsed.text }
      results search_results.length).withPagination options.offset options.limit

/-- The engine state read and written by `delete_file` / `is_indexed` /
`delete_from_index`: the committed inverted index plus the sled cache. -/
structure EngineState where
  index : List IndexedDoc
  cache : CacheDb

/-- `SearchEngine::delete_file(path)`: `delete_term` on the exact `path`
term followed by `commit` removes every document whose `path` field equals
the string; the cache is not touched. -/
def SearchEngine.deleteFile (s : EngineState) (p : String) : EngineState :=
  { index := s.index.filter (fun d => ¬ d.path = p), cache := s.cache }

/-- `SearchEngine::is_indexed(path)`: a `TermQuery` on the `path` term under
the `Count` collector, returning `count > 0` (read on the committed
index). -/
def SearchEngine.isIndexed (s : EngineState) (p : String) : Bool :=
  decide (0 < (s.index.filter (fun d => d.path = p)).length)

/-- `indexer.rs` `delete_from_index(file_path, .., Some(cache))`: deletes
the canonicalized path term and, when different, the original path term,
commits, then removes the two tag-cache entries (`EmbeddingCache::remove`),
leaving the `"meta:"` namespace alone.  `canon` is the result of
`canonicalize().unwrap_or(original)`. -/
def deleteFromIndex (s : EngineState) (canon orig : String) : EngineState :=
  let afterCanon := s.index.filter (fun d => ¬ d.path = canon)
  let afterBoth :=
    if orig = canon then afterCanon
    else afterCanon.filter (fun d => ¬ d.path = orig)
  { index := afterBoth, cache := cacheRemove (cacheRemove s.cache canon) orig }

/-! ## Association-list lemmas -/

theorem aset_cons {α : Type} (kv : String × α) (rest : List (String × α))
    (p : String) (v : α) :
    aset (kv :: rest) p v =
      (if kv.1 = p then (p, v) else kv) :: aset rest p v := rfl

theorem aremove_cons {α : Type} (kv : String × α) (rest : List (String × α))
    (p : String) :
    aremove (kv :: rest) p =
      if kv.1 = p then aremove rest p else kv :: aremove rest p := by
  by_cases hk : kv.1 = p <;> simp [aremove, hk]

theorem aget_aset_self {α : Type} (m : List (String × α)) (p : String)
    (v : α) (st : α) (h : aget m p = some st) :
    aget (aset m p v) p = some v := by
  induction m with
  | nil => simp [aget] at h
  | cons kv rest ih =>
    rw [aset_cons]
    by_cases hk : kv.1 = p
    · simp [aget, hk]
    · simp [aget, hk] at h
      simp [aget, hk, ih h]

theorem aget_aset_ne {α : Type} (m : List (String × α)) (p q : String)
    (v : α) (h : ¬ q = p) :
    aget (aset m p v) q = aget m q := by
  induction m with
  | nil => rfl
  | cons kv rest ih =>
    rw [aset_cons]
    by_cases hk : kv.1 = p
    · have hq : ¬ p = q := fun hpq => h hpq.symm
      simp [aget, hk, hq, ih]
    · by_cases hq : kv.1 = q
      · simp [aget, hk, hq, h]
      · simp [aget, hk, hq, ih]

theorem aget_append_self {α : Type} (m : List (String × α)) (p : String)
    (v : α) (h : aget m p = none) :
    aget (m ++ [(p, v)]) p = some v := by
  induction m with
  | nil => simp [aget]
  | cons kv rest ih =>
    by_cases hk : kv.1 = p
    · simp [aget, hk] at h
    · simp [aget, hk] at h ⊢
      exact ih h

theorem aget_append_ne {α : Type} (m : List (String × α)) (p q : String)
    (v : α) (h : ¬ q = p) :
    aget (m ++ [(p, v)]) q = aget m q := by
  have hp : ¬ p = q := fun hpq => h hpq.symm
  induction m with
  | nil => simp [aget, hp]
  | cons kv rest ih =>
    by_cases hq : kv.1 = q
    · simp [aget, hq]
    · simp [aget, hq, ih]

theorem aget_aremove_self {α : Type} (m : List (String × α)) (p : String) :
    aget (aremove m p) p = none := by
  induction m with
  | nil => rfl
  | cons kv rest ih =>
    rw [aremove_cons]
    by_cases hk : kv.1 = p
    · simpa [hk] using ih
    · simp [aget, hk, ih]

theorem aget_aremove_ne {α : Type} (m : List (String × α)) (p q : String)
    (h : ¬ q = p) :
    aget (aremove m p) q = aget m q := by
  induction m with
  | nil => rfl
  | cons kv rest ih =>
    rw [aremove_cons]
    have hp : ¬ p = q := fun hpq => h hpq.symm
    by_cases hk : kv.1 = p
    · have hq : ¬ kv.1 = q := by
        intro hkq
        rw [hkq] at hk
        exact h hk
      simp [aget, hk, hq, hp, ih]
    · by_cases hq : kv.1 = q
      · simp [aget, hk, hq, h]
      · simp [aget, hk, hq, ih]

theorem aget_areplace_self {α : Type} (m : List (String × α)) (p : String)
    (v : α) : aget (areplace m p v) p = some v := by
  simp [areplace, aget]

theorem aget_areplace_ne {α : Type} (m : List (String × α)) (p q : String)
    (v : α) (h : ¬ q = p) :
    aget (areplace m p v) q = aget m q := by
  have hp : ¬ p = q := fun hpq => h hpq.symm
  simp [areplace, aget, hp, aget_aremove_ne m p q h]

/-! ## Registry lemmas -/

theorem processing_tryStart_unchanged (now : Nat) (r : FileRegistry)
    (p : String) (t : Nat) (h : processingOf r p = true) :
    FileRegistry.tryStartProcessing now r p t = (false, r) := by
  unfold processingOf at h
  unfold FileRegistry.tryStartProcessing
  cases hget : aget r.files p with
  | none => rw [hget] at h; simp at h
  | some st =>
    rw [hget] at h
    simp only [] at h
    simp [h]

theorem tryStart_sets_processing (now : Nat) (r : FileRegistry)
    (p : String) (t : Nat)
    (h : (FileRegistry.tryStartProcessing now r p t).1 = true) :
    processingOf (FileRegistry.tryStartProcessing now r p t).2 p = true := by
  unfold FileRegistry.tryStartProcessing at h ⊢
  cases hget : aget r.files p with
  | none =>
    simp [hget, processingOf,
      aget_append_self r.files p _ hget]
  | some st =>
    rw [hget] at h
    by_cases hproc : st.processing
    · simp [hproc] at h
    · by_cases hmt : t ≤ st.modified_time
      · simp [hproc, hmt] at h
      · simp [hget, hproc, hmt, processingOf,
          aget_aset_self r.files p _ st hget]

theorem regStep_preserves_processing (r : FileRegistry) (p : String)
    (op : Nat × RegOp) (h : processingOf r p = true)
    (h1 : ¬ op.2 = RegOp.finish p) (h2 : ¬ op.2 = RegOp.markDel p) :
    processingOf (regStep r op) p = true := by
  obtain ⟨now, o⟩ := op
  cases o with
  | tryStart q t =>
    by_cases hq : q = p
    · subst hq
      simp [regStep, processing_tryStart_unchanged now r q t h]
      exact h
    · have hpq : ¬ p = q := fun hx => hq hx.symm
      simp only [regStep]
      unfold FileRegistry.tryStartProcessing
      cases hget : aget r.files q with
      | none =>
        simpa [processingOf, aget_append_ne r.files q p _ hpq]
          using h
      | some st =>
        by_cases hproc : st.processing
        · simpa [hproc] using h
        · by_cases hmt : t ≤ st.modified_time
          · simpa [hproc, hmt] using h
          · simpa [hproc, hmt, processingOf,
              aget_aset_ne r.files q p _ hpq] using h
  | finish q =>
    have hq : ¬ q = p := fun hx => h1 (by rw [hx])
    have hpq : ¬ p = q := fun hx => hq hx.symm
    simp only [regStep]
    unfold FileRegistry.finishProcessing
    cases hget : aget r.files q with
    | none => exact h
    | some st =>
      simpa [processingOf, aget_aset_ne r.files q p _ hpq] using h
  | markDel q =>
    have hq : ¬ q = p := fun hx => h2 (by rw [hx])
    have hpq : ¬ p = q := fun hx => hq hx.symm
    simpa [regStep, FileRegistry.markDeleted, processingOf,
      aget_aremove_ne r.files q p hpq] using h
  | addPending q k =>
    by_cases hs : r.scan_completed
    · simpa [regStep, FileRegistry.addPendingEvent, hs] using h
    · simpa [regStep, FileRegistry.addPendingEvent, hs, processingOf] using h
  | completeScanOp =>
    simpa [regStep, FileRegistry.completeScan, processingOf] using h

theorem applyOps_preserves_processing (p : String)
    (ops : List (Nat × RegOp)) :
    ∀ r : FileRegistry, processingOf r p = true →
    (∀ op ∈ ops, ¬ op.2 = RegOp.finish p ∧ ¬ op.2 = RegOp.markDel p) →
    processingOf (applyOps r ops) p = true := by
  induction ops with
  | nil => intro r h _; exact h
  | cons op rest ih =>
    intro r h hops
    have hop := hops op (List.mem_cons_self op rest)
    have hrest : ∀ o ∈ rest, ¬ o.2 = RegOp.finish p ∧ ¬ o.2 = RegOp.markDel p :=
      fun o ho => hops o (List.mem_cons_of_mem op ho)
    simpa [applyOps] using
      ih (regStep r op)
        (regStep_preserves_processing r p op h hop.1 hop.2) hrest

/-! ## Path-matcher lemmas -/

theorem pathMatchLoop_eq (path : String) (pats : List (GlobPat × Bool)) :
    ∀ inc hi : Bool,
    pathMatchLoop path pats inc hi =
      ((!(pats.any (fun q => q.2 && q.1 path))) &&
       ((!(hi || pats.any (fun q => !q.2))) ||
        (inc || pats.any (fun q => !q.2 && q.1 path)))) := by
  induction pats with
  | nil =>
    intro inc hi
    cases hi <;> cases inc <;> simp [pathMatchLoop]
  | cons q rest ih =>
    intro inc hi
    obtain ⟨pat, ex⟩ := q
    cases ex with
    | true =>
      cases hpat : pat path with
      | true => simp [pathMatchLoop, hpat]
      | false =>
        rw [pathMatchLoop]
        simp only [if_pos rfl, hpat, if_neg Bool.false_ne_true, ih]
        simp [hpat]
    | false =>
      rw [pathMatchLoop]
      simp only [Bool.false_eq_true, if_neg, ih]
      cases hpat : pat path <;> cases inc <;> cases hi <;>
        simp [hpat, Bool.or_assoc]

theorem pathMatcher_matches_iff (pats : List (GlobPat × Bool))
    (path : String) :
    PathMatcher.matches ⟨pats⟩ path = true ↔
      ((∀ q ∈ pats, q.2 = true → q.1 path = false) ∧
       ((∀ q ∈ pats, q.2 = true) ∨
        (∃ q ∈ pats, q.2 = false ∧ q.1 path = true))) := by
  unfold PathMatcher.matches
  cases pats with
  | nil => simp
  | cons q rest =>
    rw [if_neg (by simp)]
    rw [pathMatchLoop_eq]
    simp only [Bool.false_or, Bool.and_eq_true, Bool.or_eq_true,
      Bool.not_eq_true', List.any_eq_false, List.any_eq_true,
      Bool.and_eq_false_iff, Bool.not_eq_false]
    constructor
    · rintro ⟨h1, h2⟩
      refine ⟨fun x hx hex => ?_, h2⟩
      cases hb : x.1 path
      · rfl
      · exact absurd ⟨hex, hb⟩ (h1 x hx)
    · rintro ⟨h1, h2⟩
      refine ⟨fun x hx hcon => ?_, h2⟩
      rw [h1 x hx hcon.1] at hcon
      exact absurd hcon.2 (by simp)

/-! ## Remaining helper lemmas -/

theorem parseRustNat_le (b : Nat) (s : String) (n : Nat)
    (h : parseRustNat b s = some n) : n ≤ b := by
  unfold parseRustNat parseDigitsBounded at h
  split at h
  · exact absurd h (by simp)
  · split at h
    · split at h
      · cases h
        assumption
      · exact absurd h (by simp)
    · exact absurd h (by simp)

theorem filter_deleted_path (l : List IndexedDoc) (p : String) :
    (l.filter (fun d => ¬ d.path = p)).filter (fun d => d.path = p) = [] := by
  induction l with
  | nil => rfl
  | cons d rest ih =>
    by_cases hd : d.path = p
    · simp [hd, ih]
    · simp [List.filter_cons, hd, ih]

/-! ## Claims -/

/-- C1, counterexample: with three documents matching the compiled query,
`limit = 2` and `offset = 0`, the match count (3) exceeds
`offset + limit = 2`, yet the returned pagination has `has_more = false`,
because `total` is `search_results.len()` and the `TopDocs` collector
already capped the retrieved results at `limit + offset`.  So `has_more`
is not equivalent to `total matches > offset + limit`. -/
theorem c1_counterexample :
    ¬ ((SearchEngine.search (fun _ => none)
          [{ path := "/a" }, { path := "/b" }, { path := "/c" }]
          { query := "", limit := 2, offset := 0, highlight := true,
            snippet_length := 200, use_ai := false }).pagination.has_more = true ↔
        0 + 2 <
          ([{ path := "/a" }, { path := "/b" }, { path := "/c" }] :
            List IndexedDoc).length) := by
  decide

/-- C1 (amended): the returned pagination echoes `offset` and `limit`, its
`total` is the retrieved-result count `min (limit + offset) matchCount`
(capped by the `TopDocs` collector, though still counted before path
post-filtering), and consequently `has_more = total > offset + limit` is
false for every request. -/
theorem c1_pagination_capped (compile : String → Option GlobPat)
    (allMatches : List IndexedDoc) (request : SearchRequest) :
    (SearchEngine.search compile allMatches request).pagination.offset
        = request.offset ∧
    (SearchEngine.search compile allMatches request).pagination.limit
        = request.limit ∧
    (SearchEngine.search compile allMatches request).total
        = min (request.limit + request.offset) allMatches.length ∧
    (SearchEngine.search compile allMatches request).pagination.has_more
        = false := by
  refine ⟨rfl, rfl, ?_, ?_⟩
  · simp [SearchEngine.search, SearchResponse.new, SearchResponse.withPagination,
      topDocsSearch, SearchRequest.toQueryOptions]
  · have hle : ¬ (request.offset + request.limit <
        min (request.limit + request.offset) allMatches.length) := by
      omega
    simp [SearchEngine.search, SearchResponse.new, SearchResponse.withPagination,
      topDocsSearch, SearchRequest.toQueryOptions, hle]

/-- C2, counterexample: starting from a state whose index holds a document
for `/f.txt` and whose cache holds both a tag entry and a file-meta entry
for it, `SearchEngine::delete_file("/f.txt")` leaves `is_indexed` false but
both cache entries still present — the claim's cache clause fails. -/
theorem c2_counterexample :
    ¬ (SearchEngine.isIndexed
        (SearchEngine.deleteFile
          { index := [{ path := "/f.txt" }],
            cache := [("/f.txt", CacheValue.tagEntry 5 ["k"]),
                      ("meta:/f.txt", CacheValue.metaEntry 3 7 true)] }
          "/f.txt") "/f.txt" = false ∧
       dbGet (SearchEngine.deleteFile
          { index := [{ path := "/f.txt" }],
            cache := [("/f.txt", CacheValue.tagEntry 5 ["k"]),
                      ("meta:/f.txt", CacheValue.metaEntry 3 7 true)] }
          "/f.txt").cache "/f.txt" = none ∧
       dbGet (SearchEngine.deleteFile
          { index := [{ path := "/f.txt" }],
            cache := [("/f.txt", CacheValue.tagEntry 5 ["k"]),
                      ("meta:/f.txt", CacheValue.metaEntry 3 7 true)] }
          "/f.txt").cache (metaKeyOf "/f.txt") = none) := by
  decide

/-- C2 (amended): after `delete_file(p)` returns, `is_indexed(p)` is false,
but the tag cache is left entirely untouched by `delete_file`, so any tag
entry or file-meta entry keyed by `p` survives. -/
theorem c2_delete_index_only (s : EngineState) (p : String) :
    SearchEngine.isIndexed (SearchEngine.deleteFile s p) p = false ∧
    (SearchEngine.deleteFile s p).cache = s.cache := by
  constructor
  · simp [SearchEngine.isIndexed, SearchEngine.deleteFile,
      filter_deleted_path]
  · rfl

/-- C3: `try_start_processing(p, t)` returns false and leaves the whole
registry unchanged when `p`'s entry is `processing`, or when its observed
mtime is `≥ t`; otherwise it returns true after setting `processing = true`
and `observed mtime = t` on `p`'s entry (creating it when absent), leaving
every other path's entry unchanged. -/
theorem c3_try_start_processing (now : Nat) (r : FileRegistry) (p : String)
    (t : Nat) :
    (∀ st : FileState, aget r.files p = some st → st.processing = true →
        FileRegistry.tryStartProcessing now r p t = (false, r)) ∧
    (∀ st : FileState, aget r.files p = some st → st.processing = false →
        t ≤ st.modified_time →
        FileRegistry.tryStartProcessing now r p t = (false, r)) ∧
    (∀ st : FileState, aget r.files p = some st → st.processing = false →
        st.modified_time < t →
        (FileRegistry.tryStartProcessing now r p t).1 = true ∧
        aget (FileRegistry.tryStartProcessing now r p t).2.files p =
          some { st with processing := true, modified_time := t } ∧
        (∀ q, ¬ q = p →
          aget (FileRegistry.tryStartProcessing now r p t).2.files q =
            aget r.files q) ∧
        (FileRegistry.tryStartProcessing now r p t).2.scan_completed =
          r.scan_completed ∧
        (FileRegistry.tryStartProcessing now r p t).2.pending_events =
          r.pending_events) ∧
    (aget r.files p = none →
        (FileRegistry.tryStartProcessing now r p t).1 = true ∧
        aget (FileRegistry.tryStartProcessing now r p t).2.files p =
          some { modified_time := t, processed_time := now,
                 processing := true } ∧
        (∀ q, ¬ q = p →
          aget (FileRegistry.tryStartProcessing now r p t).2.files q =
            aget r.files q) ∧
        (FileRegistry.tryStartProcessing now r p t).2.scan_completed =
          r.scan_completed ∧
        (FileRegistry.tryStartProcessing now r p t).2.pending_events =
          r.pending_events) := by
  refine ⟨?_, ?_, ?_, ?_⟩
  · intro st hget hproc
    unfold FileRegistry.tryStartProcessing
    rw [hget]
    simp [hproc]
  · intro st hget hproc hmt
    unfold FileRegistry.tryStartProcessing
    rw [hget]
    simp [hproc, hmt]
  · intro st hget hproc hmt
    have hmt2 : ¬ t ≤ st.modified_time := by omega
    have heq : FileRegistry.tryStartProcessing now r p t =
        (true, { r with files := aset r.files p { st with processing := true, modified_time := t } }) := by
      unfold FileRegistry.tryStartProcessing
      rw [hget]
      simp [hproc, hmt2]
    rw [heq]
    refine ⟨rfl, ?_, ?_, rfl, rfl⟩
    · exact aget_aset_self r.files p _ st hget
    · intro q hq
      exact aget_aset_ne r.files p q _ hq
  · intro hget
    have heq : FileRegistry.tryStartProcessing now r p t =
        (true, { r with files := r.files ++ [(p, { modified_time := t, processed_time := now, processing := true })] }) := by
      unfold FileRegistry.tryStartProcessing
      rw [hget]
    rw [heq]
    refine ⟨rfl, ?_, ?_, rfl, rfl⟩
    · exact aget_append_self r.files p _ hget
    · intro q hq
      exact aget_append_ne r.files p q _ hq

/-- C3 witness: concrete registry with an in-flight entry for `/a`, a stale
entry for `/b`, and nothing for `/c`; `try_start_processing` refuses `/a`
and a stale `/b`, and accepts `/c`. -/
theorem c3_witness :
    FileRegistry.tryStartProcessing 9
      { files := [("/a", { modified_time := 5, processed_time := 0,
                           processing := true })],
        scan_completed := false, pending_events := [] } "/a" 8 =
      (false,
       { files := [("/a", { modified_time := 5, processed_time := 0,
                            processing := true })],
         scan_completed := false, pending_events := [] }) ∧
    FileRegistry.tryStartProcessing 9
      { files := [("/b", { modified_time := 5, processed_time := 0,
                           processing := false })],
        scan_completed := false, pending_events := [] } "/b" 5 =
      (false,
       { files := [("/b", { modified_time := 5, processed_time := 0,
                            processing := false })],
         scan_completed := false, pending_events := [] }) ∧
    (FileRegistry.tryStartProcessing 9 FileRegistry.new "/c" 5).1 = true ∧
    aget (FileRegistry.tryStartProcessing 9 FileRegistry.new "/c" 5).2.files
        "/c" =
      some { modified_time := 5, processed_time := 9, processing := true } := by
  refine ⟨?_, ?_, ?_, ?_⟩
  · exact (c3_try_start_processing 9 _ "/a" 8).1
      { modified_time := 5, processed_time := 0, processing := true }
      (by decide) (by decide)
  · exact (c3_try_start_processing 9 _ "/b" 5).2.1
      { modified_time := 5, processed_time := 0, processing := false }
      (by decide) (by decide) (by decide)
  · exact ((c3_try_start_processing 9 FileRegistry.new "/c" 5).2.2.2
      (by decide)).1
  · exact ((c3_try_start_processing 9 FileRegistry.new "/c" 5).2.2.2
      (by decide)).2.1

/-- C4: registry mutual exclusion.  Once a `try_start_processing(p, t)`
call returns true, every later `try_start_processing(p, _)` in any
atomically interleaved trace of registry operations returns false until a
`finish_processing(p)` or `mark_deleted(p)` occurs; and in any state in
which `p`'s entry has `processing = true`, a successful
`try_start_processing` on `p` is impossible. -/
theorem c4_mutual_exclusion (r : FileRegistry) (p : String) (t now : Nat)
    (ops : List (Nat × RegOp))
    (hstart : (FileRegistry.tryStartProcessing now r p t).1 = true)
    (hops : ∀ op ∈ ops,
      ¬ op.2 = RegOp.finish p ∧ ¬ op.2 = RegOp.markDel p) :
    (∀ t2 now2,
      (FileRegistry.tryStartProcessing now2
        (applyOps (FileRegistry.tryStartProcessing now r p t).2 ops)
        p t2).1 = false) ∧
    (∀ (r2 : FileRegistry) (t2 now2 : Nat), processingOf r2 p = true →
      (FileRegistry.tryStartProcessing now2 r2 p t2).1 = false) := by
  constructor
  · intro t2 now2
    have h1 := tryStart_sets_processing now r p t hstart
    have h2 := applyOps_preserves_processing p ops _ h1 hops
    rw [processing_tryStart_unchanged now2 _ p t2 h2]
  · intro r2 t2 now2 h2
    rw [processing_tryStart_unchanged now2 r2 p t2 h2]

/-- C4 witness: starting from the empty registry, `/a` is claimed at mtime
5; after a concurrent duplicate `try_start_processing("/a", 9)` and an
unrelated `finish_processing("/b")`, a further attempt on `/a` still
returns false. -/
theorem c4_witness :
    (FileRegistry.tryStartProcessing 3
      (applyOps (FileRegistry.tryStartProcessing 0 FileRegistry.new "/a" 5).2
        [(1, RegOp.tryStart "/a" 9), (2, RegOp.finish "/b")]) "/a" 7).1 =
      false :=
  (c4_mutual_exclusion FileRegistry.new "/a" 5 0
    [(1, RegOp.tryStart "/a" 9), (2, RegOp.finish "/b")]
    (by decide) (by decide)).1 7 3

/-- C5: after `set_keywords(p, c, ts)` succeeds, `get_keywords(p, c)`
returns `Some ts`; and `get_keywords(p, c2)` returns `None` whenever the
stored hash differs from `hash(c2)`, the entry is absent, or the stored
bytes fail to deserialize as a `CacheEntry`. -/
theorem c5_cache_roundtrip (hash : String → Nat) (db : CacheDb)
    (p c : String) (ts : List String) :
    getKeywords hash (setKeywords hash db p c ts) p c = some ts ∧
    (∀ (c2 : String) (h2 : Nat) (kws : List String),
      dbGet db p = some (CacheValue.tagEntry h2 kws) → ¬ hash c2 = h2 →
      getKeywords hash db p c2 = none) ∧
    (dbGet db p = none → ∀ c2, getKeywords hash db p c2 = none) ∧
    (∀ fs mt ix, dbGet db p = some (CacheValue.metaEntry fs mt ix) →
      ∀ c2, getKeywords hash db p c2 = none) ∧
    (dbGet db p = some CacheValue.corrupt →
      ∀ c2, getKeywords hash db p c2 = none) := by
  refine ⟨?_, ?_, ?_, ?_, ?_⟩
  · unfold getKeywords setKeywords
    rw [show dbGet (dbInsert db p (CacheValue.tagEntry (hash c) ts)) p =
        some (CacheValue.tagEntry (hash c) ts) from
      aget_areplace_self db p _]
    simp
  · intro c2 h2 kws hget hne
    unfold getKeywords
    rw [hget]
    have hne2 : ¬ h2 = hash c2 := fun h => hne h.symm
    simp [hne2]
  · intro hget c2
    unfold getKeywords
    rw [hget]
  · intro fs mt ix hget c2
    unfold getKeywords
    rw [hget]
  · intro hget c2
    unfold getKeywords
    rw [hget]

/-- C5 witness: with `hash = String.length` over a singleton cache,
`set_keywords` then `get_keywords` with the same content returns the tags,
a content of different hash misses, and an absent path misses. -/
theorem c5_witness :
    getKeywords String.length
      (setKeywords String.length [] "/f" "abc" ["k1", "k2"]) "/f" "abc" =
      some ["k1", "k2"] ∧
    getKeywords String.length [("/f", CacheValue.tagEntry 3 ["k"])] "/f"
      "wxyz" = none ∧
    getKeywords String.length [("/f", CacheValue.tagEntry 3 ["k"])] "/g"
      "abc" = none := by
  refine ⟨?_, ?_, ?_⟩
  · exact (c5_cache_roundtrip String.length [] "/f" "abc" ["k1", "k2"]).1
  · exact (c5_cache_roundtrip String.length
      [("/f", CacheValue.tagEntry 3 ["k"])] "/f" "abc" []).2.1 "wxyz" 3 ["k"]
      (by decide) (by decide)
  · exact ((c5_cache_roundtrip String.length
      [("/f", CacheValue.tagEntry 3 ["k"])] "/g" "abc" []).2.2.1
      (by decide)) "abc"

/-- C6: parsing `hello world --type=pdf --path="/p q/*" --time=7d` yields
`raw_text = "hello world"`, `file_types = ["pdf"]`, the single include
path filter `/p q/*`, and `time = LastDays 7` on the `Modified` field. -/
theorem c6_scenario_s6 :
    (QueryParser.parse
      "hello world --type=pdf --path=\"/p q/*\" --time=7d").raw_text =
        "hello world" ∧
    (QueryParser.parse
      "hello world --type=pdf --path=\"/p q/*\" --time=7d").filters.file_types =
        ["pdf"] ∧
    (QueryParser.parse
      "hello world --type=pdf --path=\"/p q/*\" --time=7d").filters.paths =
        [{ pattern := "/p q/*", exclude := false }] ∧
    (QueryParser.parse
      "hello world --type=pdf --path=\"/p q/*\" --time=7d").filters.time =
        some { field := TimeField.Modified,
               range := TimeRange.LastDays 7 } := by
  decide

/-- C7: `PathMatcher::matches` returns true iff no exclude pattern matches
the path and (there is no include pattern, or at least one include pattern
matches); with no patterns at all, every path is accepted; and appending an
exclude pattern never turns a rejected path into an accepted one. -/
theorem c7_matches_semantics (pats : List (GlobPat × Bool)) (path : String) :
    (PathMatcher.matches ⟨pats⟩ path = true ↔
      ((∀ q ∈ pats, q.2 = true → q.1 path = false) ∧
       ((∀ q ∈ pats, q.2 = true) ∨
        (∃ q ∈ pats, q.2 = false ∧ q.1 path = true)))) ∧
    PathMatcher.matches ⟨([] : List (GlobPat × Bool))⟩ path = true ∧
    (∀ e : GlobPat,
      PathMatcher.matches ⟨pats ++ [(e, true)]⟩ path = true →
      PathMatcher.matches ⟨pats⟩ path = true) := by
  refine ⟨pathMatcher_matches_iff pats path,
    by simp [PathMatcher.matches], ?_⟩
  intro e h
  rw [pathMatcher_matches_iff] at h ⊢
  obtain ⟨h1, h2⟩ := h
  refine ⟨fun q hq hq2 => h1 q (List.mem_append_left _ hq) hq2, ?_⟩
  rcases h2 with h2 | h2
  · exact Or.inl (fun q hq => h2 q (List.mem_append_left _ hq))
  · obtain ⟨q, hq, hq2, hq3⟩ := h2
    rcases List.mem_append.mp hq with hq4 | hq4
    · exact Or.inr ⟨q, hq4, hq2, hq3⟩
    · exfalso
      have hqe : q = (e, true) := by simpa using hq4
      rw [hqe] at hq2
      simp at hq2

/-- C7 witness: one concrete include pattern matching `/a`; appending a
never-matching exclude keeps `/a` accepted, by the antitonicity part. -/
theorem c7_witness :
    PathMatcher.matches
      ⟨[((fun s => decide (s = "/a")), false)]⟩ "/a" = true :=
  (c7_matches_semantics [((fun s => decide (s = "/a")), false)] "/a").2.2
    (fun _ => false) (by decide)

/-- C8: the compiled time predicate is the half-open window `[lo, hi)`:
`LastHours/Days/Weeks/Months(n)` give `lo = now - n*3600 / n*86400 /
n*7*86400 / n*30*86400` (saturating at 0) with `hi = now`; `Today` gives
`lo = (now/86400)*86400`, `hi = now`; `ThisWeek`/`ThisMonth` give
`lo = now - 7*86400 / now - 30*86400`; `After(t)` gives `[t, u64::MAX)`;
`Before(t)` gives `[0, t)`; and the emitted range query on the selected
field accepts exactly the values in `[lo, hi)`. -/
theorem c8_time_compilation (now n t x : Nat) :
    calculateTimeRange now (TimeRange.LastHours n) =
      some (now - n * 3600, now) ∧
    calculateTimeRange now (TimeRange.LastDays n) =
      some (now - n * 86400, now) ∧
    calculateTimeRange now (TimeRange.LastWeeks n) =
      some (now - n * 7 * 86400, now) ∧
    calculateTimeRange now (TimeRange.LastMonths n) =
      some (now - n * 30 * 86400, now) ∧
    calculateTimeRange now TimeRange.Today =
      some (now / 86400 * 86400, now) ∧
    calculateTimeRange now TimeRange.ThisWeek =
      some (now - 7 * 86400, now) ∧
    calculateTimeRange now TimeRange.ThisMonth =
      some (now - 30 * 86400, now) ∧
    calculateTimeRange now (TimeRange.After t) = some (t, U64MAXN) ∧
    calculateTimeRange now (TimeRange.Before t) = some (0, t) ∧
    (∀ (f : TimeField) (rng : TimeRange),
      buildTimeQuery now { field := f, range := rng } =
        (calculateTimeRange now rng).map
          (fun pr => { field := f, lowerIncl := pr.1, upperExcl := pr.2 })) ∧
    (∀ q : TimeRangeQuery,
      timeQueryMatches q x = true ↔ q.lowerIncl ≤ x ∧ x < q.upperExcl) := by
  refine ⟨rfl, rfl, rfl, rfl, rfl, rfl, rfl, rfl, rfl, ?_, ?_⟩
  · intro f rng
    cases rng <;> rfl
  · intro q
    simp [timeQueryMatches]

/-- C9: a `PathFilter` whose pattern the glob compiler rejects is silently
discarded by `PathMatcher::new` (no error is reported); in particular,
when every include pattern is invalid and no compiled exclude pattern
matches a path, the matcher accepts that path. -/
theorem c9_invalid_globs_dropped (compile : String → Option GlobPat)
    (filters : List PathFilter) (path : String)
    (hinc : ∀ f ∈ filters, f.exclude = false → compile f.pattern = none)
    (hexc : ∀ f ∈ filters, ∀ pat : GlobPat, f.exclude = true →
      compile f.pattern = some pat → pat path = false) :
    PathMatcher.matches (PathMatcher.new compile filters) path = true ∧
    (∀ (g : PathFilter) (rest : List PathFilter),
      compile g.pattern = none →
      PathMatcher.new compile (g :: rest) = PathMatcher.new compile rest) := by
  constructor
  · have hchar := pathMatcher_matches_iff
      (filters.filterMap
        (fun f => (compile f.pattern).map (fun pt => (pt, f.exclude)))) path
    unfold PathMatcher.new
    rw [hchar]
    constructor
    · intro q hq hq2
      rw [List.mem_filterMap] at hq
      obtain ⟨f, hf, hmap⟩ := hq
      rw [Option.map_eq_some'] at hmap
      obtain ⟨pat, hc, rfl⟩ := hmap
      exact hexc f hf pat hq2 hc
    · left
      intro q hq
      rw [List.mem_filterMap] at hq
      obtain ⟨f, hf, hmap⟩ := hq
      rw [Option.map_eq_some'] at hmap
      obtain ⟨pat, hc, rfl⟩ := hmap
      show f.exclude = true
      cases hex : f.exclude
      · rw [hinc f hf hex] at hc
        exact absurd hc (by simp)
      · rfl
  · intro g rest hnone
    unfold PathMatcher.new
    simp [List.filterMap_cons, hnone]

/-- C9 witness: the only include pattern `bad[` is an invalid glob and is
dropped; the exclude `/tmp` does not match `/x`; so `/x` is accepted. -/
theorem c9_witness :
    PathMatcher.matches
      (PathMatcher.new
        (fun s => if s = "bad[" then none
                  else some (fun q => decide (q = s)))
        [{ pattern := "bad[", exclude := false },
         { pattern := "/tmp", exclude := true }]) "/x" = true := by
  refine (c9_invalid_globs_dropped _ _ "/x" ?_ ?_).1
  · intro f hf hex
    simp only [List.mem_cons, List.not_mem_nil, or_false] at hf
    rcases hf with rfl | rfl
    · rw [if_pos rfl]
    · exact absurd hex (by simp)
  · intro f hf pat hex hc
    simp only [List.mem_cons, List.not_mem_nil, or_false] at hf
    rcases hf with rfl | rfl
    · exact absurd hex (by simp)
    · rw [if_neg (by decide)] at hc
      have hpat := Option.some.inj hc
      rw [← hpat]
      decide

/-- C10: `parse_date` maps a string of exactly three parseable integer
parts `Y-M-D` (with `Y ≥ 1970`, `M ≥ 1`, `D ≥ 1`) to the fixed
approximation `((Y-1970)*365 + (M-1)*30 + (D-1)) * 86400` seconds — every
year 365 days, every month 30 days, no leap handling — and any other
shape (wrong part count, or a part that fails to parse) yields `None`. -/
theorem c10_parse_date (s : String) :
    (∀ ys ms ds y m d,
      splitOnChar '-' s = [ys, ms, ds] →
      parseRustNat I32MAXN ys = some y →
      parseRustNat U32MAXN ms = some m →
      parseRustNat U32MAXN ds = some d →
      1970 ≤ y → 1 ≤ m → 1 ≤ d →
      parseDate s =
        some (((y - 1970) * 365 + (m - 1) * 30 + (d - 1)) * 86400)) ∧
    (¬ (splitOnChar '-' s).length = 3 → parseDate s = none) ∧
    (∀ ys ms ds, splitOnChar '-' s = [ys, ms, ds] →
      (parseRustNat I32MAXN ys = none ∨ parseRustNat U32MAXN ms = none ∨
       parseRustNat U32MAXN ds = none) →
      parseDate s = none) := by
  refine ⟨?_, ?_, ?_⟩
  · intro ys ms ds y m d hsplit hy hm hd hy2 hm2 hd2
    have hyb := parseRustNat_le _ _ _ hy
    have hmb := parseRustNat_le _ _ _ hm
    have hdb := parseRustNat_le _ _ _ hd
    unfold parseDate
    rw [hsplit]
    show parseDateParts ys ms ds = _
    have hparts : parseDateParts ys ms ds =
        some ((i32CastU64 ((y : Int) - 1970) * 365
          + u32SubWrap m 1 * 30 + u32SubWrap d 1) % U64MOD
          * 86400 % U64MOD) := by
      unfold parseDateParts
      rw [hy, hm, hd]
    rw [hparts]
    have h1 : i32CastU64 ((y : Int) - 1970) = y - 1970 := by
      unfold i32CastU64 U64MOD
      unfold I32MAXN at hyb
      omega
    have h2 : u32SubWrap m 1 = m - 1 := by
      unfold u32SubWrap U32MOD
      unfold U32MAXN at hmb
      omega
    have h3 : u32SubWrap d 1 = d - 1 := by
      unfold u32SubWrap U32MOD
      unfold U32MAXN at hdb
      omega
    rw [h1, h2, h3]
    refine congrArg some ?_
    unfold U64MOD
    unfold I32MAXN at hyb
    unfold U32MAXN at hmb hdb
    omega
  · intro hlen
    unfold parseDate
    cases h : splitOnChar '-' s with
    | nil => rfl
    | cons a l1 =>
      cases l1 with
      | nil => rfl
      | cons b l2 =>
        cases l2 with
        | nil => rfl
        | cons c l3 =>
          cases l3 with
          | nil =>
            exfalso
            rw [h] at hlen
            simp at hlen
          | cons d l4 => rfl
  · intro ys ms ds hsplit hfail
    unfold parseDate
    rw [hsplit]
    show parseDateParts ys ms ds = none
    unfold parseDateParts
    rcases hfail with h | h | h
    · rw [h]
    · rw [h]
      cases parseRustNat I32MAXN ys <;> rfl
    · rw [h]
      cases parseRustNat I32MAXN ys <;> cases parseRustNat U32MAXN ms <;> rfl

/-- C10 witness: `2024-03-10` maps to the approximated timestamp, while a
two-part string and a non-numeric month yield `None`. -/
theorem c10_witness :
    parseDate "2024-03-10" =
      some (((2024 - 1970) * 365 + (3 - 1) * 30 + (10 - 1)) * 86400) ∧
    parseDate "2024-03" = none ∧
    parseDate "2024-xx-10" = none := by
  refine ⟨?_, ?_, ?_⟩
  · exact (c10_parse_date "2024-03-10").1 "2024" "03" "10" 2024 3 10
      (by decide) (by decide) (by decide) (by decide) (by decide)
      (by decide) (by decide)
  · exact (c10_parse_date "2024-03").2.1 (by decide)
  · exact (c10_parse_date "2024-xx-10").2.2 "2024" "xx" "10" (by decide)
      (Or.inr (Or.inl (by decide)))
